import Mathlib

/-!
Verification of the endpoint-resolver module `src/frontend/src/config/api.ts`
of the Data-Intelligence-Platform frontend.

The module reads one external configuration value (`import.meta.env.VITE_API_URL`),
falls back to the empty string, normalizes endpoint paths to carry a leading
slash, and exposes a fixed table of five endpoint URLs.  JavaScript strings are
modelled as Lean `String`s (sequences of characters); the absent configuration
value is modelled as `Option String`.
-/

/-- Semantics of the JavaScript call `s.startsWith(pre)`:
`pre` is a character-wise prefix of `s`. -/
def jsStartsWith (s pre : String) : Bool :=
  pre.data.isPrefixOf s.data

/-- `export const API_BASE_URL = import.meta.env.VITE_API_URL || ''`.
The JavaScript `||` operator returns the left operand when it is truthy; for a
string value this means present and non-empty.  The environment value is the
explicit argument `env`. -/
def API_BASE_URL (env : Option String) : String :=
  match env with
  | none => ""
  | some v => if v = "" then "" else v

/-- The spec's name `resolveBaseUrl` for the computation of `API_BASE_URL`. -/
def resolveBaseUrl (env : Option String) : String :=
  API_BASE_URL env

/-- The local `normalizedEndpoint` of `getApiUrl`:
`endpoint.startsWith('/') ? endpoint : '/' + endpoint`. -/
def normalizedEndpoint (endpoint : String) : String :=
  if jsStartsWith endpoint "/" then endpoint else "/" ++ endpoint

/-- `getApiUrl(endpoint)` returns `` `${API_BASE_URL}${normalizedEndpoint}` ``.
The module-level constant `API_BASE_URL` is passed explicitly as `base`
(the spec calls this two-argument form `buildUrl`). -/
def getApiUrl (base endpoint : String) : String :=
  base ++ normalizedEndpoint endpoint

/-- The fixed, closed set of logical endpoint names of `API_ENDPOINTS`. -/
inductive EndpointName : Type
  | CLEAN_REPORT
  | CLEAN_REPORT_RUNS
  | LIST_TABLES
  | RUN_ANALYSIS
  | CHAT
deriving DecidableEq

/-- `export const API_ENDPOINTS = { ... }`: the table built by calling
`getApiUrl` on each fixed literal path, with the module's base explicit. -/
def API_ENDPOINTS (base : String) : EndpointName → String
  | .CLEAN_REPORT => getApiUrl base "/clean-report"
  | .CLEAN_REPORT_RUNS => getApiUrl base "/clean-report/runs"
  | .LIST_TABLES => getApiUrl base "/list-tables"
  | .RUN_ANALYSIS => getApiUrl base "/run-analysis"
  | .CHAT => getApiUrl base "/chat"

/-- A character list contains two adjacent slashes somewhere. -/
def hasDoubleSlashList : List Char → Bool
  | [] => false
  | [_] => false
  | a :: b :: rest => (a == '/' && b == '/') || hasDoubleSlashList (b :: rest)

/-- The string contains a double slash `//`. -/
def hasDoubleSlash (s : String) : Bool :=
  hasDoubleSlashList s.data

/-- The string begins with exactly one leading slash: its first character is
`'/'` and its second character (if any) is not. -/
def beginsWithExactlyOneSlash (s : String) : Bool :=
  (s.data.head? == some '/') && !(s.data.tail.head? == some '/')

/-! ### Helper lemmas -/

theorem jsStartsWith_slash_iff (s : String) :
    jsStartsWith s "/" = true ↔ ∃ t, s.data = '/' :: t := by
  unfold jsStartsWith
  constructor
  · intro hp
    cases hd : s.data with
    | nil =>
      rw [hd] at hp
      exact absurd hp (by decide)
    | cons c t =>
      rw [hd] at hp
      have hb : (('/' == c) && List.isPrefixOf ([] : List Char) t) = true := hp
      have hc : c = '/' := by
        simp only [Bool.and_eq_true, beq_iff_eq] at hb
        exact hb.1.symm
      exact ⟨t, by rw [hc]⟩
  · rintro ⟨t, ht⟩
    rw [ht]
    show (('/' == '/') && List.isPrefixOf ([] : List Char) t) = true
    simp [List.isPrefixOf]

theorem jsStartsWith_slash_false_head (s : String)
    (h : jsStartsWith s "/" = false) : s.data.head? ≠ some '/' := by
  intro hh
  cases hd : s.data with
  | nil => rw [hd] at hh; exact Option.noConfusion hh
  | cons c t =>
    rw [hd] at hh
    have hc : c = '/' := by simpa using hh
    have ht : jsStartsWith s "/" = true :=
      (jsStartsWith_slash_iff s).2 ⟨t, by rw [hd, hc]⟩
    rw [ht] at h
    exact Bool.noConfusion h

/-- Every normalized endpoint starts with a slash. -/
theorem normalizedEndpoint_startsWith (e : String) :
    jsStartsWith (normalizedEndpoint e) "/" = true := by
  unfold normalizedEndpoint
  split
  · assumption
  · exact (jsStartsWith_slash_iff _).2 ⟨e.data, rfl⟩

theorem normalizedEndpoint_of_startsWith (s : String)
    (h : jsStartsWith s "/" = true) : normalizedEndpoint s = s := by
  unfold normalizedEndpoint
  rw [if_pos h]

theorem empty_append (s : String) : "" ++ s = s :=
  String.ext rfl

theorem hasDoubleSlashList_cons_slash (l : List Char)
    (h : hasDoubleSlashList l = false) (hh : l.head? ≠ some '/') :
    hasDoubleSlashList ('/' :: l) = false := by
  cases l with
  | nil => rfl
  | cons c t =>
    show ((('/' == '/') && (c == '/')) || hasDoubleSlashList (c :: t)) = false
    have hc : (c == '/') = false :=
      beq_eq_false_iff_ne.2 (by simpa using hh)
    rw [hc, h]
    rfl

theorem hasDoubleSlashList_slash_cons (t : List Char)
    (h : hasDoubleSlashList ('/' :: t) = false) : t.head? ≠ some '/' := by
  intro hh
  cases t with
  | nil => exact Option.noConfusion hh
  | cons c u =>
    have hc : c = '/' := by simpa using hh
    rw [hc] at h
    have ht : hasDoubleSlashList ('/' :: '/' :: u) = true := by
      show ((('/' == '/') && ('/' == '/')) || hasDoubleSlashList ('/' :: u)) = true
      rfl
    rw [ht] at h
    exact Bool.noConfusion h

/-- With no double slash in the endpoint, the normalized endpoint begins with
exactly one leading slash. -/
theorem normalizedEndpoint_one_slash (e : String) (h : hasDoubleSlash e = false) :
    beginsWithExactlyOneSlash (normalizedEndpoint e) = true := by
  unfold normalizedEndpoint
  split
  · next hs =>
    obtain ⟨t, ht⟩ := (jsStartsWith_slash_iff e).1 hs
    have hf : hasDoubleSlashList ('/' :: t) = false := by
      have h' : hasDoubleSlashList e.data = false := h
      rw [ht] at h'
      exact h'
    have hT : (t.head? == some '/') = false :=
      beq_eq_false_iff_ne.2 (hasDoubleSlashList_slash_cons t hf)
    unfold beginsWithExactlyOneSlash
    rw [ht]
    simp [hT]
  · next hs =>
    have hs' : jsStartsWith e "/" = false := eq_false_of_ne_true hs
    have hE : (e.data.head? == some '/') = false :=
      beq_eq_false_iff_ne.2 (jsStartsWith_slash_false_head e hs')
    unfold beginsWithExactlyOneSlash
    have hd : ("/" ++ e).data = '/' :: e.data := rfl
    rw [hd]
    simp [hE]

/-- With no double slash in the endpoint, normalization introduces none. -/
theorem normalizedEndpoint_no_double (e : String) (h : hasDoubleSlash e = false) :
    hasDoubleSlash (normalizedEndpoint e) = false := by
  unfold normalizedEndpoint
  split
  · exact h
  · next hs =>
    have hs' : jsStartsWith e "/" = false := eq_false_of_ne_true hs
    show hasDoubleSlashList ('/' :: e.data) = false
    exact hasDoubleSlashList_cons_slash e.data h (jsStartsWith_slash_false_head e hs')

/-! ### Claim theorems -/

/-- Claim C1: for every string `base` and endpoint string `e`, `getApiUrl`
(the spec's `buildUrl`) returns the concatenation of `base` and the normalized
endpoint: `base ++ e` when `e` already starts with `/`, and `base ++ "/" ++ e`
otherwise, with no other separator logic. -/
theorem getApiUrl_concat_normalized (base e : String) :
    getApiUrl base e =
      if jsStartsWith e "/" then base ++ e else base ++ "/" ++ e := by
  unfold getApiUrl normalizedEndpoint
  split
  · rfl
  · exact (String.append_assoc base "/" e).symm

/-- Claim C2 (counterexample): the invariant "every resolved URL begins with
exactly one leading slash and contains no double slash" fails for the
resolved URL `getApiUrl "" "//x"`, which begins with two slashes. -/
theorem getApiUrl_double_slash_cex :
    ¬ (beginsWithExactlyOneSlash (getApiUrl "" "//x") = true ∧
       hasDoubleSlash (getApiUrl "" "//x") = false) := by
  decide

/-- Claim C2 (amended): for every endpoint `e` that itself contains no double
slash, the normalized endpoint appended after the base begins with exactly
one leading slash and contains no double slash, the resolved URL being
exactly `base` followed by that normalized endpoint; and every value of the
endpoint table with the empty base begins with exactly one leading slash and
contains no double slash. -/
theorem getApiUrl_one_slash_no_double_slash (base e : String)
    (h : hasDoubleSlash e = false) :
    beginsWithExactlyOneSlash (normalizedEndpoint e) = true ∧
    hasDoubleSlash (normalizedEndpoint e) = false ∧
    getApiUrl base e = base ++ normalizedEndpoint e ∧
    (∀ n : EndpointName,
      beginsWithExactlyOneSlash (API_ENDPOINTS "" n) = true ∧
      hasDoubleSlash (API_ENDPOINTS "" n) = false) := by
  refine ⟨normalizedEndpoint_one_slash e h, normalizedEndpoint_no_double e h, rfl, ?_⟩
  intro n
  cases n <;> exact ⟨by decide, by decide⟩

/-- Claim C2 witness. -/
theorem getApiUrl_one_slash_no_double_slash_w :
    beginsWithExactlyOneSlash (normalizedEndpoint "chat") = true ∧
    hasDoubleSlash (normalizedEndpoint "chat") = false :=
  ⟨(getApiUrl_one_slash_no_double_slash "" "chat" (by decide)).1,
   (getApiUrl_one_slash_no_double_slash "" "chat" (by decide)).2.1⟩

/-- Claim C3: `resolveBaseUrl` (the computation of `API_BASE_URL`) returns a
present, non-empty configuration value verbatim, and returns the empty string
when the value is absent or empty; no error is raised (the function is total). -/
theorem resolveBaseUrl_spec (env : Option String) :
    resolveBaseUrl env = API_BASE_URL env ∧
    (∀ v, env = some v → v ≠ "" → resolveBaseUrl env = v) ∧
    ((env = none ∨ env = some "") → resolveBaseUrl env = "") := by
  refine ⟨rfl, ?_, ?_⟩
  · intro v hv hne
    rw [hv]
    show (if v = "" then "" else v) = v
    rw [if_neg hne]
  · rintro (hn | he)
    · rw [hn]; rfl
    · rw [he]; rfl

/-- Claim C3 witness. -/
theorem resolveBaseUrl_spec_w :
    resolveBaseUrl (some "http://127.0.0.1:8082") = "http://127.0.0.1:8082" ∧
    resolveBaseUrl none = "" :=
  ⟨(resolveBaseUrl_spec (some "http://127.0.0.1:8082")).2.1 _ rfl (by decide),
   (resolveBaseUrl_spec none).2.2 (Or.inl rfl)⟩

/-- Claim C4: when `e` does not start with `/`, the result of
`getApiUrl base e` carries exactly one slash immediately after `base` (the
inserted `'/'` is followed by the first character of `e`, which is not a
slash); when `e` does start with `/`, no extra slash is inserted. -/
theorem getApiUrl_exactly_one_slash_after_base (base e : String) :
    (jsStartsWith e "/" = false →
      (getApiUrl base e).data = base.data ++ '/' :: e.data ∧
      e.data.head? ≠ some '/') ∧
    (jsStartsWith e "/" = true → (getApiUrl base e).data = base.data ++ e.data) := by
  constructor
  · intro h
    refine ⟨?_, jsStartsWith_slash_false_head e h⟩
    unfold getApiUrl normalizedEndpoint
    rw [if_neg (by simp [h])]
    rfl
  · intro h
    unfold getApiUrl normalizedEndpoint
    rw [if_pos h]
    rfl

/-- Claim C4 witness. -/
theorem getApiUrl_exactly_one_slash_after_base_w :
    (getApiUrl "b" "x").data = "b".data ++ '/' :: "x".data ∧
    "x".data.head? ≠ some '/' :=
  (getApiUrl_exactly_one_slash_after_base "b" "x").1 (by decide)

/-- Claim C5: the endpoint table has exactly the five keys `CLEAN_REPORT`,
`CLEAN_REPORT_RUNS`, `LIST_TABLES`, `RUN_ANALYSIS`, `CHAT`; with the empty
base they are bound to `/clean-report`, `/clean-report/runs`, `/list-tables`,
`/run-analysis`, `/chat` respectively, and for every base each key is bound
to `base` followed by its (already normalized) literal path. -/
theorem API_ENDPOINTS_table (base : String) :
    (API_ENDPOINTS "" .CLEAN_REPORT = "/clean-report" ∧
     API_ENDPOINTS "" .CLEAN_REPORT_RUNS = "/clean-report/runs" ∧
     API_ENDPOINTS "" .LIST_TABLES = "/list-tables" ∧
     API_ENDPOINTS "" .RUN_ANALYSIS = "/run-analysis" ∧
     API_ENDPOINTS "" .CHAT = "/chat") ∧
    (∀ n : EndpointName,
      n = .CLEAN_REPORT ∨ n = .CLEAN_REPORT_RUNS ∨ n = .LIST_TABLES ∨
      n = .RUN_ANALYSIS ∨ n = .CHAT) ∧
    (API_ENDPOINTS base .CLEAN_REPORT = base ++ "/clean-report" ∧
     API_ENDPOINTS base .CLEAN_REPORT_RUNS = base ++ "/clean-report/runs" ∧
     API_ENDPOINTS base .LIST_TABLES = base ++ "/list-tables" ∧
     API_ENDPOINTS base .RUN_ANALYSIS = base ++ "/run-analysis" ∧
     API_ENDPOINTS base .CHAT = base ++ "/chat") := by
  refine ⟨⟨by decide, by decide, by decide, by decide, by decide⟩, ?_, ?_⟩
  · intro n
    cases n
    · exact Or.inl rfl
    · exact Or.inr (Or.inl rfl)
    · exact Or.inr (Or.inr (Or.inl rfl))
    · exact Or.inr (Or.inr (Or.inr (Or.inl rfl)))
    · exact Or.inr (Or.inr (Or.inr (Or.inr rfl)))
  · exact ⟨congrArg (fun s => base ++ s) (by decide),
      congrArg (fun s => base ++ s) (by decide),
      congrArg (fun s => base ++ s) (by decide),
      congrArg (fun s => base ++ s) (by decide),
      congrArg (fun s => base ++ s) (by decide)⟩

/-- Claim C6: the spec's concrete scenarios.  With the configuration unset the
base is `""` and `getApiUrl` maps `clean-report` to `/clean-report`; with the
configuration `http://127.0.0.1:8082`, `/chat` resolves to
`http://127.0.0.1:8082/chat` and `list-tables` to
`http://127.0.0.1:8082/list-tables`. -/
theorem concrete_scenarios :
    resolveBaseUrl none = "" ∧
    getApiUrl (resolveBaseUrl none) "clean-report" = "/clean-report" ∧
    getApiUrl (resolveBaseUrl (some "http://127.0.0.1:8082")) "/chat" =
      "http://127.0.0.1:8082/chat" ∧
    getApiUrl (resolveBaseUrl (some "http://127.0.0.1:8082")) "list-tables" =
      "http://127.0.0.1:8082/list-tables" := by
  refine ⟨rfl, ?_, ?_, ?_⟩ <;> decide

/-- Claim C7: every operation of the component is total: for every input
(including an absent configuration value and an endpoint without a leading
slash) each operation returns a string; in this embedding the operations are
total Lean functions into `String`, with no error or failure branch. -/
theorem operations_total :
    (∀ env : Option String, ∃ s : String, resolveBaseUrl env = s) ∧
    (∀ base e : String, ∃ s : String, getApiUrl base e = s) ∧
    (∀ (base : String) (n : EndpointName), ∃ s : String, API_ENDPOINTS base n = s) :=
  ⟨fun env => ⟨resolveBaseUrl env, rfl⟩,
   fun base e => ⟨getApiUrl base e, rfl⟩,
   fun base n => ⟨API_ENDPOINTS base n, rfl⟩⟩

/-- Claim C8: `getApiUrl` (the spec's `buildUrl`) is deterministic and pure:
its output is a function of its two arguments alone, so two calls on
identical inputs yield identical outputs. -/
theorem getApiUrl_deterministic (b1 e1 b2 e2 : String)
    (hb : b1 = b2) (he : e1 = e2) :
    getApiUrl b1 e1 = getApiUrl b2 e2 := by
  rw [hb, he]

/-- Claim C8 witness. -/
theorem getApiUrl_deterministic_w :
    getApiUrl "http://127.0.0.1:8082" "chat" = getApiUrl "http://127.0.0.1:8082" "chat" :=
  getApiUrl_deterministic "http://127.0.0.1:8082" "chat" "http://127.0.0.1:8082" "chat"
    rfl rfl

/-- Claim C9: the empty endpoint is normalized to `/` rather than rejected:
`getApiUrl base ""` is the base followed by a single trailing slash. -/
theorem getApiUrl_empty_endpoint (base : String) :
    getApiUrl base "" = base ++ "/" :=
  rfl

/-- Claim C10: with the empty base, `getApiUrl` is idempotent; for every base
the result extends `base` (the base's characters are a prefix of the
result's), and the remainder is `e` verbatim whenever `e` already starts
with `/`. -/
theorem getApiUrl_normalization_idempotent (base e : String) :
    getApiUrl "" (getApiUrl "" e) = getApiUrl "" e ∧
    (∃ rest, (getApiUrl base e).data = base.data ++ rest) ∧
    (jsStartsWith e "/" = true → getApiUrl base e = base ++ e) := by
  refine ⟨?_, ⟨(normalizedEndpoint e).data, rfl⟩, ?_⟩
  · have he : getApiUrl "" e = normalizedEndpoint e := empty_append _
    rw [he]
    calc getApiUrl "" (normalizedEndpoint e)
        = normalizedEndpoint (normalizedEndpoint e) := empty_append _
      _ = normalizedEndpoint e :=
        normalizedEndpoint_of_startsWith _ (normalizedEndpoint_startsWith e)
  · intro h
    unfold getApiUrl
    rw [normalizedEndpoint_of_startsWith e h]

/-- Claim C10 witness. -/
theorem getApiUrl_normalization_idempotent_w :
    getApiUrl "http://127.0.0.1:8082" "/chat" = "http://127.0.0.1:8082" ++ "/chat" :=
  (getApiUrl_normalization_idempotent "http://127.0.0.1:8082" "/chat").2.2 (by decide)
